import Mathlib

/-!
Verification development for the gotroot-toolkit recon pipeline.

The definitions below are a shallow embedding of the Python sources
`src/db.py` (risk scoring, graph building, findings) and `src/server.py`
(target normalization, path-spec parsing, HTTP redirect following).
Python integers are modelled as `Int`, Python lists as `List`,
Python dicts both as association lists (when iterated) and as
key lookups over association lists (when accessed by key).
Network and URL-library effects (`http.client`, `urllib.parse`) are
modelled as explicit oracle parameters.
-/

namespace GotRoot

/-! ### String helpers

`chPref pat s` checks that `pat` is an initial segment of `s`;
`chSub pat s` checks that `pat` occurs contiguously inside `s`.
`strHas s pat` is the embedding of Python's substring test `pat in s`.
-/

def chPref : List Char → List Char → Bool
  | [], _ => true
  | _ :: _, [] => false
  | a :: as, b :: bs => a = b && chPref as bs

def chSub (pat : List Char) : List Char → Bool
  | [] => chPref pat []
  | b :: bs => chPref pat (b :: bs) || chSub pat bs

def strHas (s pat : String) : Bool := chSub pat.data s.data

/-- ASCII whitespace stripped by Python's `str.strip()`. -/
def isWS (c : Char) : Bool :=
  c = ' ' || c = '\t' || c = '\n' || c = '\r' || c = '\x0b' || c = '\x0c'

/-- Python `str.strip()`: drop whitespace from both ends. -/
def stripStr (s : String) : String :=
  ⟨((s.data.dropWhile isWS).reverse.dropWhile isWS).reverse⟩

/-- Python `str.lower()` (ASCII case folding, as used by the sources). -/
def lowerStr (s : String) : String := ⟨s.data.map Char.toLower⟩

/-- Split a character list at every separator character, keeping empty
pieces (the behaviour of Python `str.split(sep)` for one-character `sep`). -/
def splitChs (p : Char → Bool) : List Char → List (List Char)
  | [] => [[]]
  | c :: cs =>
      match splitChs p cs with
      | [] => [[c]]
      | g :: gs => if p c then [] :: g :: gs else (c :: g) :: gs

def splitStr (p : Char → Bool) (s : String) : List String :=
  (splitChs p s.data).map (fun l => ⟨l⟩)

/-- Lookup in an association list with string keys: Python's `dict.get`. -/
def lookupKV (l : List (String × String)) (k : String) : Option String :=
  (l.find? (fun e => e.1 = k)).map (fun e => e.2)

/-! ### Risk scoring engine (`db.py`: `_path_risk`, `_port_risk`, `_calc_risk`) -/

/-- The `high` dict of `_path_risk`, in Python insertion (= iteration) order. -/
def pathRiskTable : List (String × Int) :=
  [("/admin", 80), ("/phpmyadmin", 90), ("/.env", 95), ("/.git", 95),
   ("/.htaccess", 85), ("/backup", 75), ("/wp-admin", 80), ("/debug", 70),
   ("/server-status", 70), ("/phpinfo", 75), ("/console", 80), ("/shell", 95)]

/-- `_path_risk(path)`: lower-case and strip, first substring match in the
table wins, else `/api` → 30, `/login` → 40, else 10. -/
def pathRisk (path : String) : Int :=
  let path := stripStr (lowerStr path)
  match pathRiskTable.find? (fun pr => strHas path pr.1) with
  | some pr => pr.2
  | none =>
      if strHas path "/api" then 30
      else if strHas path "/login" then 40
      else 10

/-- The `high_ports` dict of `_port_risk`. -/
def highPorts : List (Int × Int) :=
  [(21, 25), (22, 15), (23, 30), (25, 10), (3306, 30), (5432, 30), (6379, 35),
   (8080, 15), (8443, 10), (9200, 25), (27017, 35)]

/-- `_port_risk(port, service)`: table weight (default 5), +40 on an
`apache 2.4.49` banner, clamped to 100. -/
def portRisk (port : Int) (service : String) : Int :=
  let svc := lowerStr service
  let base :=
    match highPorts.find? (fun e => e.1 = port) with
    | some e => e.2
    | none => 5
  let risk := base + (if strHas svc "apache 2.4.49" then 40 else 0)
  min risk 100

/-! ### Data model

The recon import document (`import_recon_json`'s `data` argument) and the
rows of the SQLite tables written by the graph builder.  JSON values that
appear in node attribute dicts are modelled by `AVal`.
-/

/-- A JSON-like attribute value, covering every shape passed to
`save_node`'s `data` argument in `db.py`. -/
inductive AVal where
  | s (v : String)
  | i (v : Int)
  | b (v : Bool)
  | ls (v : List String)
  | li (v : List Int)
  | kv (v : List (String × String))
deriving DecidableEq, Repr

/-- One element of a target's `alive` list (a LivenessResult as stored in
the recon JSON; absent keys are read with the defaults shown in
`import_recon_json`, which the field defaults mirror). -/
structure AliveEntry where
  url : String := ""
  final_url : String := ""
  status : Int := 0
  server : String := ""
  cdn : Bool := false
  cdn_name : String := ""
  cdn_type : String := ""
  chain_status_codes : List Int := []
deriving DecidableEq, Repr

/-- One element of the document's `targets` list.  `dns_ptr_values`
models `t["dns_meta"]["ptr"]["values"]`; `infra` is the opaque infra
mapping (accessed only via its `"type"` key and passed through to node
attributes). `port_detail` keys are the JSON string forms of ports. -/
structure TargetDoc where
  domain : String := ""
  ips : List String := []
  ports : List Int := []
  port_detail : List (String × String) := []
  dns_ptr_values : List String := []
  alive : List AliveEntry := []
  dirb : List String := []
  infra : List (String × String) := []
deriving DecidableEq, Repr

/-- The whole import document; `root_domain := none` models a document
without a `root_domain` key (read with default `"unknown"`). -/
structure ReconDoc where
  root_domain : Option String := none
  targets : List TargetDoc := []
deriving DecidableEq, Repr

/-- `_calc_risk(target)` from `db.py`. `Int.fdiv` is Python's floor
division `//`. -/
def calcRisk (t : TargetDoc) : Int :=
  let score : Int := 0
  let score := score + (if t.ports.contains 8080 then 15 else 0)
  let score := score + (if t.ports.contains 3306 then 25 else 0)
  let score := score + (if t.ports.contains 22 then 10 else 0)
  let score := t.port_detail.foldl (fun acc pv =>
    let svc := lowerStr pv.2
    let acc := acc + (if strHas svc "apache 2.4.49" then 40 else 0)
    let acc := acc + (if strHas svc "apache 2.4.50" then 35 else 0)
    acc + (if strHas svc "nginx 1.0" then 20 else 0)) score
  let score := t.dirb.foldl (fun acc p => acc + Int.fdiv (pathRisk p) 5) score
  let score := score + (if lookupKV t.infra "type" = some "cloud" then 5 else 0)
  min score 100

/-! ### The store (SQLite tables touched by the graph builder)

`graph_nodes` has `UNIQUE(session_id, node_id)` and is written with
`INSERT OR REPLACE` (`save_node`), so it is keyed on
`(session_id, node_id)`: the conflicting row is deleted and the new row
appended.  `graph_edges` and `findings` are plain appends.  `targets`
rows get autoincrement ids, modelled as 1-based list positions (the
importer only ever appends). Timestamp / screenshot / position columns
that the builder never writes are omitted.
-/

abbrev NodeKey := Int × String

structure NodeRec where
  node_type : String
  label : String
  data : List (String × AVal)
  risk_score : Int
deriving DecidableEq, Repr

structure EdgeRec where
  session_id : Int
  source_id : String
  target_id : String
  edge_type : String
  label : String
deriving DecidableEq, Repr

structure FindingRec where
  session_id : Int
  title : String
  severity : String
  category : String
  detail : String
  recommendation : String
  endpoint : String
deriving DecidableEq, Repr

/-- A row of the `targets` table: scalar columns plus the JSON columns,
kept as the structured `TargetDoc` they serialize. -/
structure TargetRow where
  session_id : Int
  domain : String
  root_domain : String
  doc : TargetDoc
  risk_score : Int
deriving DecidableEq, Repr

structure Store where
  nodes : List (NodeKey × NodeRec)
  edges : List EdgeRec
  findings : List FindingRec
  targets : List TargetRow
deriving DecidableEq, Repr

def emptyStore : Store := ⟨[], [], [], []⟩

/-- `INSERT OR REPLACE` into `graph_nodes`: delete any row with the same
`(session_id, node_id)` key, then append the new row. -/
def upsertNode (l : List (NodeKey × NodeRec)) (k : NodeKey) (v : NodeRec) :
    List (NodeKey × NodeRec) :=
  l.filter (fun e => !decide (e.1 = k)) ++ [(k, v)]

/-- `save_node(session_id, node_id, node_type, label, data, risk_score)`. -/
def saveNode (st : Store) (sid : Int) (nid : String) (ntype label : String)
    (data : List (String × AVal)) (risk : Int) : Store :=
  { st with nodes := upsertNode st.nodes (sid, nid) ⟨ntype, label, data, risk⟩ }

/-- `save_edge(session_id, source_id, target_id, edge_type, label)`. -/
def saveEdge (st : Store) (sid : Int) (source target etype label : String) : Store :=
  { st with edges := st.edges ++ [⟨sid, source, target, etype, label⟩] }

/-- `create_finding(...)`: append a findings row. -/
def createFinding (st : Store) (f : FindingRec) : Store :=
  { st with findings := st.findings ++ [f] }

/-- `create_target(...)`: append a targets row (risk defaults to 0) and
return its autoincrement id. -/
def createTarget (st : Store) (sid : Int) (domain root : String) (t : TargetDoc) :
    Store × Nat :=
  ({ st with targets := st.targets ++ [⟨sid, domain, root, t, 0⟩] },
   st.targets.length + 1)

def updRow (tid : Nat) (risk : Int) : List TargetRow → Nat → List TargetRow
  | [], _ => []
  | r :: rs, idx =>
      (if idx = tid then { r with risk_score := risk } else r) :: updRow tid risk rs (idx + 1)

/-- `update_target(tid, risk_score=risk)`. -/
def updateTarget (st : Store) (tid : Nat) (risk : Int) : Store :=
  { st with targets := updRow tid risk st.targets 1 }

/-! ### The graph builder (`import_recon_json`)

Each `for` loop of the Python function becomes a recursive helper whose
body is the loop body in statement order.
-/

/-- The `for ip in t.get("ips", [])` loop. -/
def ipLoop (sid : Int) (domain : String) (ptr : List String) :
    List String → Store → Store
  | [], st => st
  | ip :: ips, st =>
      let st := saveNode st sid ("ip:" ++ ip) "ip" ip [("ptr", AVal.ls ptr)] 0
      let st := saveEdge st sid ("domain:" ++ domain) ("ip:" ++ ip) "resolves_to" ""
      ipLoop sid domain ptr ips st

/-- Service label for a port: `port_detail.get(str(port), "unknown")`
(the second, integer-keyed lookup in the source can never hit for a
JSON-decoded detail map, whose keys are strings). -/
def serviceOf (pd : List (String × String)) (port : Int) : String :=
  (lookupKV pd (toString port)).getD "unknown"

/-- The `for port in t.get("ports", [])` loop. -/
def portLoop (sid : Int) (domain : String) (pd : List (String × String)) :
    List Int → Store → Store
  | [], st => st
  | port :: ports, st =>
      let service := serviceOf pd port
      let pRisk := portRisk port service
      let st := saveNode st sid ("port:" ++ domain ++ ":" ++ toString port) "port"
        (":" ++ toString port ++ " (" ++ service ++ ")")
        [("service", AVal.s service), ("port", AVal.i port)] pRisk
      let st := saveEdge st sid ("domain:" ++ domain)
        ("port:" ++ domain ++ ":" ++ toString port) "exposes" ""
      portLoop sid domain pd ports st

/-- The body of the `for alive in t.get("alive", [])` loop. -/
def aliveStep (sid : Int) (domain : String) (e : AliveEntry) (st : Store) : Store :=
  if e.url = "" then st
  else
    let st := saveNode st sid ("url:" ++ e.url) "url" e.url
      [("server", AVal.s e.server), ("cdn", AVal.s e.cdn_name),
       ("status", AVal.i e.status), ("chain", AVal.li e.chain_status_codes)] 0
    let st := saveEdge st sid ("domain:" ++ domain) ("url:" ++ e.url) "serves" ""
    if e.final_url ≠ "" ∧ e.final_url ≠ e.url then
      let st := saveNode st sid ("url:" ++ e.final_url) "url" e.final_url
        [("type", AVal.s "redirect_target")] 0
      saveEdge st sid ("url:" ++ e.url) ("url:" ++ e.final_url) "redirects_to" ""
    else st

def aliveLoop (sid : Int) (domain : String) :
    List AliveEntry → Store → Store
  | [], st => st
  | e :: es, st => aliveLoop sid domain es (aliveStep sid domain e st)

/-- The body of the `for path in t.get("dirb", [])` loop (entries are
strings when represented at all; non-strings are skipped by the code). -/
def dirbStep (sid : Int) (domain : String) (path0 : String) (st : Store) : Store :=
  let path := stripStr path0
  if path = "" then st
  else
    let pRisk := pathRisk path
    let st := saveNode st sid ("path:" ++ domain ++ path) "path" path
      [("domain", AVal.s domain)] pRisk
    let st := saveEdge st sid ("domain:" ++ domain) ("path:" ++ domain ++ path) "contains" ""
    if pRisk ≥ 60 then
      createFinding st
        ⟨sid, "Sensitive Path: " ++ path,
         (if pRisk ≥ 80 then "HIGH" else "MEDIUM"), "Exposure",
         "Directory bruteforce found " ++ path ++ " on " ++ domain,
         "Restrict access to " ++ path, domain ++ path⟩
    else st

def dirbLoop (sid : Int) (domain : String) :
    List String → Store → Store
  | [], st => st
  | p :: ps, st => dirbLoop sid domain ps (dirbStep sid domain p st)

/-- The per-target block of `import_recon_json` (executed when the
target's domain is non-empty). -/
def importTarget (sid : Int) (root : String) (t : TargetDoc) (st : Store) : Store :=
  let (st, tid) := createTarget st sid t.domain root t
  let risk := calcRisk t
  let st := updateTarget st tid risk
  let st := saveNode st sid ("domain:" ++ t.domain) "subdomain" t.domain
    [("target_id", AVal.i tid), ("infra", AVal.kv t.infra)] risk
  let st := saveEdge st sid ("domain:" ++ root) ("domain:" ++ t.domain)
    "has_subdomain" ((splitStr (fun c => c = '.') t.domain).headD "")
  let st := ipLoop sid t.domain t.dns_ptr_values t.ips st
  let st := portLoop sid t.domain t.port_detail t.ports st
  let st := aliveLoop sid t.domain t.alive st
  dirbLoop sid t.domain t.dirb st

/-- The `for t in targets_data` loop, threading the `imported` counter. -/
def importTargets (sid : Int) (root : String) :
    List TargetDoc → Store × Nat → Store × Nat
  | [], acc => acc
  | t :: ts, (st, n) =>
      if t.domain = "" then importTargets sid root ts (st, n)
      else importTargets sid root ts (importTarget sid root t st, n + 1)

/-- `import_recon_json(session_id, data)`: root node, then the targets
loop; returns the updated store and the `imported` count.  (The final
`update_session` call touches only the `sessions` table, which is
plumbing outside the graph builder's store.) -/
def importReconJson (sid : Int) (d : ReconDoc) (st : Store) : Store × Nat :=
  let root := d.root_domain.getD "unknown"
  let st := saveNode st sid ("domain:" ++ root) "domain" root
    [("type", AVal.s "root_domain")] 10
  importTargets sid root d.targets (st, 0)

/-! ### server.py: path-spec parsing (`_parse_paths`, `DEFAULT_PATHS`) -/

def DEFAULT_PATHS : List String :=
  ["/admin", "/login", "/signin", "/dashboard", "/.git", "/.env",
   "/phpmyadmin", "/wp-admin", "/server-status", "/api", "/debug"]

/-- The argument of `_parse_paths`: `None`, a JSON list, or anything
else (coerced with `str` and split into lines). -/
inductive PathsSpec where
  | absent
  | ofList (l : List String)
  | ofStr (s : String)
deriving DecidableEq, Repr

/-- Python `str.splitlines()` restricted to the `\n`/`\r` separators
(the exotic Unicode line breaks are not representable in the specs this
server receives; entries produced by other separators would be blank
and dropped identically). -/
def splitlines (s : String) : List String :=
  splitStr (fun c => c = '\n' || c = '\r') s

/-- The cleaning loop of `_parse_paths`: strip, drop blanks, ensure a
leading slash. -/
def cleanPaths (paths : List String) : List String :=
  paths.filterMap (fun p =>
    let q := stripStr p
    if q = "" then none
    else some (if chPref ['/'] q.data then q else "/" ++ q))

/-- `_parse_paths(raw)`: `None` gives the defaults; otherwise clean the
entries and fall back to the defaults when nothing survives
(`return cleaned or DEFAULT_PATHS[:]`). -/
def parsePaths : PathsSpec → List String
  | PathsSpec.absent => DEFAULT_PATHS
  | PathsSpec.ofList l =>
      let cleaned := cleanPaths l
      if cleaned = [] then DEFAULT_PATHS else cleaned
  | PathsSpec.ofStr s =>
      let cleaned := cleanPaths (splitlines s)
      if cleaned = [] then DEFAULT_PATHS else cleaned

/-! ### server.py: target normalization (`_normalize_target`)

`urllib.parse.urlparse` is an external library call; it is passed in as
an oracle producing the three components the code reads. -/

/-- The fields of a `urlparse` result that `_normalize_target` reads.
`hostname := none` models both a missing and an empty hostname source
(`p.hostname` is `None` for URLs without a host); an explicit
`some ""` is also handled like Python's falsy `""`. -/
structure UrlParts where
  scheme : String
  hostname : Option String
  port : Option Int
deriving DecidableEq, Repr

structure NormTarget where
  raw : String
  host : String
  scheme : String
  port : Option Int
  base : String
deriving DecidableEq, Repr

/-- `_normalize_target(raw)`: strip; empty input gives `None`; prepend
`https://` when no `://` occurs; read scheme/host/port through
`urlparse`; host falls back to the (prefixed) raw string when the
parsed hostname is falsy; scheme is forced into `{http, https}`. -/
def normalizeTarget (parse : String → UrlParts) (raw0 : String) : Option NormTarget :=
  let raw := stripStr raw0
  if raw = "" then none
  else
    let raw := if strHas raw "://" then raw else "https://" ++ raw
    let p := parse raw
    let host :=
      match p.hostname with
      | some h => if h = "" then raw else h
      | none => raw
    let scheme := if p.scheme = "http" || p.scheme = "https" then p.scheme else "https"
    let base := scheme ++ "://" ++ host
    let base :=
      match p.port with
      | some pt => if pt = 0 then base else base ++ ":" ++ toString pt
      | none => base
    some ⟨raw, host, scheme, p.port, base⟩

/-! ### server.py: HTTP probe with redirect following
(`_http_request`, `_fetch_with_redirects`)

The network is an oracle `req method url` returning `none` for a raised
exception, else the status and the (lower-cased) response headers.
`urljoin` is likewise an oracle. -/

structure HttpResp where
  status : Int
  headers : List (String × String)
deriving DecidableEq, Repr

/-- The `try: HEAD / except: try: GET / except: return None` pattern
shared by `_fetch_with_redirects` and the path enumerator. -/
def attemptRequest (req : String → String → Option HttpResp) (url : String) :
    Option HttpResp :=
  match req "HEAD" url with
  | some r => some r
  | none => req "GET" url

/-- One `for` iteration state of `_fetch_with_redirects`, with the
remaining iteration count as fuel (`range(max_redirects + 1)`). The
fuel-exhausted case is the code after the loop. -/
def fetchGo (req : String → String → Option HttpResp)
    (join : String → String → String) (origUrl : String) :
    Nat → String → List Int → String → Option AliveEntry
  | 0, cur, chain, server =>
      some { url := origUrl, final_url := cur,
             status := (chain.getLast?).getD 0, server := server,
             cdn := false, cdn_name := "", cdn_type := "",
             chain_status_codes := chain }
  | n + 1, cur, chain, server =>
      match attemptRequest req cur with
      | none => none
      | some r =>
          let chain := chain ++ [r.status]
          let server := (lookupKV r.headers "server").getD server
          let loc := lookupKV r.headers "location"
          let isRedir := r.status = 301 || r.status = 302 || r.status = 303 ||
            r.status = 307 || r.status = 308
          match loc with
          | some l =>
              if isRedir && l ≠ "" then
                fetchGo req join origUrl n (join cur l) chain server
              else
                some { url := origUrl, final_url := cur, status := r.status,
                       server := server, cdn := false, cdn_name := "",
                       cdn_type := "", chain_status_codes := chain }
          | none =>
              some { url := origUrl, final_url := cur, status := r.status,
                     server := server, cdn := false, cdn_name := "",
                     cdn_type := "", chain_status_codes := chain }

/-- `_fetch_with_redirects(url, timeout, max_redirects)`. -/
def fetchWithRedirects (req : String → String → Option HttpResp)
    (join : String → String → String) (url : String)
    (maxRedirects : Nat := 5) : Option AliveEntry :=
  fetchGo req join url (maxRedirects + 1) url [] ""

/-! ### Upsert algebra for the node table

`applyNW m ws` applies a list of `(key, row)` upsert writes to the node
table `m`, exactly as a sequence of `save_node` calls does. -/

def applyNW : List (NodeKey × NodeRec) → List (NodeKey × NodeRec) →
    List (NodeKey × NodeRec)
  | m, [] => m
  | m, w :: ws => applyNW (upsertNode m w.1 w.2) ws

theorem applyNW_append (ws1 ws2 : List (NodeKey × NodeRec)) :
    ∀ m, applyNW m (ws1 ++ ws2) = applyNW (applyNW m ws1) ws2 := by
  induction ws1 with
  | nil => intro m; rfl
  | cons w ws ih => intro m; simpa [applyNW] using ih (upsertNode m w.1 w.2)

theorem mem_applyNW {e : NodeKey × NodeRec} :
    ∀ (ws m : List (NodeKey × NodeRec)), e ∈ applyNW m ws →
      e ∈ m ∨ e.1 ∈ ws.map Prod.fst := by
  intro ws
  induction ws with
  | nil => intro m h; exact Or.inl h
  | cons w ws ih =>
      intro m h
      rcases ih (upsertNode m w.1 w.2) h with h' | h'
      · unfold upsertNode at h'
        rcases List.mem_append.mp h' with h'' | h''
        · exact Or.inl (List.mem_of_mem_filter h'')
        · simp only [List.mem_singleton] at h''
          subst h''
          simp
      · simp [h']

/-- Normal form of a batch of upserts: rows of `m` whose key is not
re-written, in place, followed by the batch applied to the empty table. -/
theorem applyNW_eq_filter (ws : List (NodeKey × NodeRec)) :
    ∀ m, applyNW m ws =
      m.filter (fun e => !decide (e.1 ∈ ws.map Prod.fst)) ++ applyNW [] ws := by
  induction ws with
  | nil => intro m; simp [applyNW]
  | cons w ws ih =>
      intro m
      have hstep : applyNW m (w :: ws) = applyNW (upsertNode m w.1 w.2) ws := rfl
      rw [hstep, ih]
      have hnil : applyNW ([] : List (NodeKey × NodeRec)) (w :: ws)
          = applyNW [(w.1, w.2)] ws := rfl
      rw [hnil, ih [(w.1, w.2)]]
      unfold upsertNode
      rw [List.filter_append, List.append_assoc]
      congr 1
      rw [List.filter_filter]
      apply List.filter_congr
      intro e _
      by_cases h1 : e.1 = w.1 <;> by_cases h2 : e.1 ∈ ws.map Prod.fst <;>
        simp [h1, h2]

/-- Applying the same batch of upsert writes twice leaves the node table
exactly as after the first application. -/
theorem applyNW_self (m ws : List (NodeKey × NodeRec)) :
    applyNW (applyNW m ws) ws = applyNW m ws := by
  rw [applyNW_eq_filter ws (applyNW m ws), applyNW_eq_filter ws m,
      List.filter_append]
  have h1 : (m.filter (fun e => !decide (e.1 ∈ ws.map Prod.fst))).filter
      (fun e => !decide (e.1 ∈ ws.map Prod.fst))
      = m.filter (fun e => !decide (e.1 ∈ ws.map Prod.fst)) := by
    rw [List.filter_filter]
    apply List.filter_congr
    intro e _
    by_cases h : e.1 ∈ ws.map Prod.fst <;> simp [h]
  have h2 : (applyNW [] ws).filter (fun e => !decide (e.1 ∈ ws.map Prod.fst))
      = [] := by
    rw [List.filter_eq_nil_iff]
    intro e he
    rcases mem_applyNW ws [] he with h | h
    · cases h
    · simp [h]
  rw [h1, h2, List.append_nil]

/-- Key, node type, label and risk of a node row: everything except the
attribute payload (which embeds the autoincrement target id). -/
def stripE (e : NodeKey × NodeRec) : NodeKey × String × String × Int :=
  (e.1, e.2.node_type, e.2.label, e.2.risk_score)

theorem filter_key_map_stripE (p : NodeKey → Bool) :
    ∀ (m m' : List (NodeKey × NodeRec)), m.map stripE = m'.map stripE →
      (m.filter (fun e => p e.1)).map stripE
        = (m'.filter (fun e => p e.1)).map stripE := by
  intro m
  induction m with
  | nil =>
      intro m' h
      rw [List.map_eq_nil_iff.mp h.symm]
  | cons a t ih =>
      intro m' h
      cases m' with
      | nil => simp at h
      | cons a' t' =>
          simp only [List.map_cons, List.cons.injEq] at h
          obtain ⟨ha, ht⟩ := h
          have hk : a.1 = a'.1 := by
            have h' := congrArg Prod.fst ha
            simpa [stripE] using h'
          by_cases hp : p a.1
          · simp [List.filter_cons, hp, ← hk, ha, ih t' ht]
          · simp [List.filter_cons, hp, ← hk, ih t' ht]

/-- Batches equal up to attribute payloads act equally, up to attribute
payloads, on tables equal up to attribute payloads. -/
theorem applyNW_map_stripE :
    ∀ (ws ws' m m' : List (NodeKey × NodeRec)),
      ws.map stripE = ws'.map stripE → m.map stripE = m'.map stripE →
      (applyNW m ws).map stripE = (applyNW m' ws').map stripE := by
  intro ws
  induction ws with
  | nil =>
      intro ws' m m' hw hm
      rw [List.map_eq_nil_iff.mp hw.symm]
      exact hm
  | cons w t ih =>
      intro ws' m m' hw hm
      cases ws' with
      | nil => simp at hw
      | cons w' t' =>
          simp only [List.map_cons, List.cons.injEq] at hw
          obtain ⟨hw1, hw2⟩ := hw
          have hk : w.1 = w'.1 := by
            have h' := congrArg Prod.fst hw1
            simpa [stripE] using h'
          refine ih t' _ _ hw2 ?_
          unfold upsertNode
          rw [List.map_append, List.map_append]
          congr 1
          · rw [← hk]
            exact filter_key_map_stripE (fun x => !decide (x = w.1)) m m' hm
          · simpa [stripE] using congrArg (fun q => [q]) hw1

theorem nodup_keys_upsertNode (m : List (NodeKey × NodeRec)) (k : NodeKey)
    (v : NodeRec) (h : (m.map Prod.fst).Nodup) :
    ((upsertNode m k v).map Prod.fst).Nodup := by
  unfold upsertNode
  rw [List.map_append]
  rw [List.nodup_append]
  refine ⟨?_, by simp, ?_⟩
  · exact ((List.filter_sublist m).map Prod.fst).nodup h
  · intro a ha hb
    simp only [List.map_cons, List.map_nil, List.mem_singleton] at hb
    subst hb
    obtain ⟨e, he, hek⟩ := List.mem_map.mp ha
    have := List.of_mem_filter he
    simp [hek] at this

theorem nodup_keys_applyNW :
    ∀ (ws m : List (NodeKey × NodeRec)), (m.map Prod.fst).Nodup →
      ((applyNW m ws).map Prod.fst).Nodup := by
  intro ws
  induction ws with
  | nil => intro m h; exact h
  | cons w t ih =>
      intro m h
      exact ih _ (nodup_keys_upsertNode m w.1 w.2 h)

/-! ### Factorization of the graph builder into write lists

Each loop of `import_recon_json` only appends to `graph_edges` /
`findings` / `targets` and upserts into `graph_nodes`; the lemmas below
exhibit the exact write lists. -/

def ipNodeWrites (sid : Int) (ptr : List String) (ips : List String) :
    List (NodeKey × NodeRec) :=
  ips.map (fun ip => ((sid, "ip:" ++ ip), ⟨"ip", ip, [("ptr", AVal.ls ptr)], 0⟩))

def ipEdges (sid : Int) (domain : String) (ips : List String) : List EdgeRec :=
  ips.map (fun ip => ⟨sid, "domain:" ++ domain, "ip:" ++ ip, "resolves_to", ""⟩)

theorem ipLoop_eq (sid : Int) (domain : String) (ptr : List String) :
    ∀ (ips : List String) (st : Store),
      ipLoop sid domain ptr ips st =
        { st with nodes := applyNW st.nodes (ipNodeWrites sid ptr ips),
                  edges := st.edges ++ ipEdges sid domain ips } := by
  intro ips
  induction ips with
  | nil => intro st; simp [ipLoop, ipNodeWrites, ipEdges, applyNW]
  | cons ip ips ih =>
      intro st
      rw [ipLoop, ih]
      simp [saveNode, saveEdge, ipNodeWrites, ipEdges, applyNW]

def portNodeWrites (sid : Int) (domain : String) (pd : List (String × String))
    (ports : List Int) : List (NodeKey × NodeRec) :=
  ports.map (fun port =>
    ((sid, "port:" ++ domain ++ ":" ++ toString port),
     ⟨"port", ":" ++ toString port ++ " (" ++ serviceOf pd port ++ ")",
      [("service", AVal.s (serviceOf pd port)), ("port", AVal.i port)],
      portRisk port (serviceOf pd port)⟩))

def portEdges (sid : Int) (domain : String) (ports : List Int) : List EdgeRec :=
  ports.map (fun port =>
    ⟨sid, "domain:" ++ domain, "port:" ++ domain ++ ":" ++ toString port,
     "exposes", ""⟩)

theorem portLoop_eq (sid : Int) (domain : String) (pd : List (String × String)) :
    ∀ (ports : List Int) (st : Store),
      portLoop sid domain pd ports st =
        { st with nodes := applyNW st.nodes (portNodeWrites sid domain pd ports),
                  edges := st.edges ++ portEdges sid domain ports } := by
  intro ports
  induction ports with
  | nil => intro st; simp [portLoop, portNodeWrites, portEdges, applyNW]
  | cons port ports ih =>
      intro st
      rw [portLoop, ih]
      simp [saveNode, saveEdge, portNodeWrites, portEdges, applyNW]

def aliveNodeWrites (sid : Int) (e : AliveEntry) : List (NodeKey × NodeRec) :=
  if e.url = "" then []
  else
    ((sid, "url:" ++ e.url),
     (⟨"url", e.url,
       [("server", AVal.s e.server), ("cdn", AVal.s e.cdn_name),
        ("status", AVal.i e.status), ("chain", AVal.li e.chain_status_codes)],
       0⟩ : NodeRec)) ::
    (if e.final_url ≠ "" ∧ e.final_url ≠ e.url then
      [((sid, "url:" ++ e.final_url),
        ⟨"url", e.final_url, [("type", AVal.s "redirect_target")], 0⟩)]
     else [])

def aliveEdges (sid : Int) (domain : String) (e : AliveEntry) : List EdgeRec :=
  if e.url = "" then []
  else
    (⟨sid, "domain:" ++ domain, "url:" ++ e.url, "serves", ""⟩ : EdgeRec) ::
    (if e.final_url ≠ "" ∧ e.final_url ≠ e.url then
      [⟨sid, "url:" ++ e.url, "url:" ++ e.final_url, "redirects_to", ""⟩]
     else [])

theorem aliveStep_eq (sid : Int) (domain : String) (e : AliveEntry) (st : Store) :
    aliveStep sid domain e st =
      { st with nodes := applyNW st.nodes (aliveNodeWrites sid e),
                edges := st.edges ++ aliveEdges sid domain e } := by
  unfold aliveStep aliveNodeWrites aliveEdges
  by_cases h1 : e.url = ""
  · simp [h1, applyNW]
  · by_cases h2 : e.final_url ≠ "" ∧ e.final_url ≠ e.url
    · simp [h1, h2, saveNode, saveEdge, applyNW]
    · simp [h1, h2, saveNode, saveEdge, applyNW]

def aliveNodesAll (sid : Int) (es : List AliveEntry) : List (NodeKey × NodeRec) :=
  (es.map (aliveNodeWrites sid)).flatten

def aliveEdgesAll (sid : Int) (domain : String) (es : List AliveEntry) :
    List EdgeRec :=
  (es.map (aliveEdges sid domain)).flatten

theorem aliveLoop_eq (sid : Int) (domain : String) :
    ∀ (es : List AliveEntry) (st : Store),
      aliveLoop sid domain es st =
        { st with nodes := applyNW st.nodes (aliveNodesAll sid es),
                  edges := st.edges ++ aliveEdgesAll sid domain es } := by
  intro es
  induction es with
  | nil => intro st; simp [aliveLoop, aliveNodesAll, aliveEdgesAll, applyNW]
  | cons e es ih =>
      intro st
      rw [aliveLoop, ih, aliveStep_eq]
      simp [aliveNodesAll, aliveEdgesAll, applyNW_append]

def dirbNodeWrites (sid : Int) (domain : String) (p : String) :
    List (NodeKey × NodeRec) :=
  let path := stripStr p
  if path = "" then []
  else
    [((sid, "path:" ++ domain ++ path),
      ⟨"path", path, [("domain", AVal.s domain)], pathRisk path⟩)]

def dirbEdgeWrites (sid : Int) (domain : String) (p : String) : List EdgeRec :=
  let path := stripStr p
  if path = "" then []
  else [⟨sid, "domain:" ++ domain, "path:" ++ domain ++ path, "contains", ""⟩]

def dirbFindingWrites (sid : Int) (domain : String) (p : String) :
    List FindingRec :=
  let path := stripStr p
  if path = "" then []
  else if pathRisk path ≥ 60 then
    [⟨sid, "Sensitive Path: " ++ path,
      (if pathRisk path ≥ 80 then "HIGH" else "MEDIUM"), "Exposure",
      "Directory bruteforce found " ++ path ++ " on " ++ domain,
      "Restrict access to " ++ path, domain ++ path⟩]
  else []

theorem dirbStep_eq (sid : Int) (domain : String) (p : String) (st : Store) :
    dirbStep sid domain p st =
      { st with nodes := applyNW st.nodes (dirbNodeWrites sid domain p),
                edges := st.edges ++ dirbEdgeWrites sid domain p,
                findings := st.findings ++ dirbFindingWrites sid domain p } := by
  unfold dirbStep dirbNodeWrites dirbEdgeWrites dirbFindingWrites
  by_cases h1 : stripStr p = ""
  · simp [h1, applyNW]
  · by_cases h2 : pathRisk (stripStr p) ≥ 60
    · simp [h1, h2, saveNode, saveEdge, createFinding, applyNW]
    · simp [h1, h2, saveNode, saveEdge, applyNW]

def dirbNodesAll (sid : Int) (domain : String) (ps : List String) :
    List (NodeKey × NodeRec) :=
  (ps.map (dirbNodeWrites sid domain)).flatten

def dirbEdgesAll (sid : Int) (domain : String) (ps : List String) : List EdgeRec :=
  (ps.map (dirbEdgeWrites sid domain)).flatten

def dirbFindingsAll (sid : Int) (domain : String) (ps : List String) :
    List FindingRec :=
  (ps.map (dirbFindingWrites sid domain)).flatten

theorem dirbLoop_eq (sid : Int) (domain : String) :
    ∀ (ps : List String) (st : Store),
      dirbLoop sid domain ps st =
        { st with nodes := applyNW st.nodes (dirbNodesAll sid domain ps),
                  edges := st.edges ++ dirbEdgesAll sid domain ps,
                  findings := st.findings ++ dirbFindingsAll sid domain ps } := by
  intro ps
  induction ps with
  | nil => intro st; simp [dirbLoop, dirbNodesAll, dirbEdgesAll, dirbFindingsAll, applyNW]
  | cons p ps ih =>
      intro st
      rw [dirbLoop, ih, dirbStep_eq]
      simp [dirbNodesAll, dirbEdgesAll, dirbFindingsAll, applyNW_append]

/-- All node writes of one target block; `tid` is the autoincrement id
returned by `create_target` for this target. -/
def targetNodeWrites (sid : Int) (tid : Nat) (t : TargetDoc) :
    List (NodeKey × NodeRec) :=
  ((sid, "domain:" ++ t.domain),
   (⟨"subdomain", t.domain,
     [("target_id", AVal.i tid), ("infra", AVal.kv t.infra)], calcRisk t⟩ : NodeRec)) ::
  (ipNodeWrites sid t.dns_ptr_values t.ips ++
   portNodeWrites sid t.domain t.port_detail t.ports ++
   aliveNodesAll sid t.alive ++
   dirbNodesAll sid t.domain t.dirb)

def targetEdgeWrites (sid : Int) (root : String) (t : TargetDoc) : List EdgeRec :=
  (⟨sid, "domain:" ++ root, "domain:" ++ t.domain, "has_subdomain",
    (splitStr (fun c => c = '.') t.domain).headD ""⟩ : EdgeRec) ::
  (ipEdges sid t.domain t.ips ++
   portEdges sid t.domain t.ports ++
   aliveEdgesAll sid t.domain t.alive ++
   dirbEdgesAll sid t.domain t.dirb)

def targetRowOf (sid : Int) (root : String) (t : TargetDoc) : TargetRow :=
  ⟨sid, t.domain, root, t, calcRisk t⟩

theorem updRow_append (risk : Int) :
    ∀ (l : List TargetRow) (r : TargetRow) (idx : Nat),
      updRow (idx + l.length) risk (l ++ [r]) idx
        = l ++ [{ r with risk_score := risk }] := by
  intro l
  induction l with
  | nil => intro r idx; simp [updRow]
  | cons a l ih =>
      intro r idx
      have hne : ¬ idx = idx + (a :: l).length := by
        simp only [List.length_cons]
        omega
      have harith : idx + (a :: l).length = (idx + 1) + l.length := by
        simp only [List.length_cons]
        omega
      simp only [List.cons_append, updRow, hne, if_false, List.append_eq]
      rw [harith, ih r (idx + 1)]

theorem importTarget_eq (sid : Int) (root : String) (t : TargetDoc) (st : Store) :
    importTarget sid root t st =
      { nodes := applyNW st.nodes (targetNodeWrites sid (st.targets.length + 1) t),
        edges := st.edges ++ targetEdgeWrites sid root t,
        findings := st.findings ++ dirbFindingsAll sid t.domain t.dirb,
        targets := st.targets ++ [targetRowOf sid root t] } := by
  simp only [importTarget, createTarget]
  rw [dirbLoop_eq, aliveLoop_eq, portLoop_eq, ipLoop_eq]
  simp only [saveNode, saveEdge, updateTarget]
  have hupd : updRow (st.targets.length + 1) (calcRisk t)
      (st.targets ++ [⟨sid, t.domain, root, t, 0⟩]) 1
      = st.targets ++ [targetRowOf sid root t] := by
    have := updRow_append (calcRisk t) st.targets ⟨sid, t.domain, root, t, 0⟩ 1
    rw [Nat.add_comm 1 st.targets.length] at this
    simpa [targetRowOf] using this
  simp [hupd, targetNodeWrites, targetEdgeWrites, applyNW, applyNW_append]

/-- Node writes of the whole targets loop; `ctr` is the number of rows
already in the `targets` table (the next autoincrement id minus one). -/
def targetsNodeWrites (sid : Int) : List TargetDoc → Nat → List (NodeKey × NodeRec)
  | [], _ => []
  | t :: ts, ctr =>
      if t.domain = "" then targetsNodeWrites sid ts ctr
      else targetNodeWrites sid (ctr + 1) t ++ targetsNodeWrites sid ts (ctr + 1)

def targetsEdgeWrites (sid : Int) (root : String) : List TargetDoc → List EdgeRec
  | [] => []
  | t :: ts =>
      if t.domain = "" then targetsEdgeWrites sid root ts
      else targetEdgeWrites sid root t ++ targetsEdgeWrites sid root ts

def targetsFindingWrites (sid : Int) : List TargetDoc → List FindingRec
  | [] => []
  | t :: ts =>
      if t.domain = "" then targetsFindingWrites sid ts
      else dirbFindingsAll sid t.domain t.dirb ++ targetsFindingWrites sid ts

def targetsRows (sid : Int) (root : String) : List TargetDoc → List TargetRow
  | [] => []
  | t :: ts =>
      if t.domain = "" then targetsRows sid root ts
      else targetRowOf sid root t :: targetsRows sid root ts

/-- Number of target entries with a non-empty domain (the `imported`
count). -/
def countValid : List TargetDoc → Nat
  | [] => 0
  | t :: ts => (if t.domain = "" then 0 else 1) + countValid ts

theorem importTargets_eq (sid : Int) (root : String) :
    ∀ (ts : List TargetDoc) (st : Store) (n : Nat),
      importTargets sid root ts (st, n) =
        ({ nodes := applyNW st.nodes (targetsNodeWrites sid ts st.targets.length),
           edges := st.edges ++ targetsEdgeWrites sid root ts,
           findings := st.findings ++ targetsFindingWrites sid ts,
           targets := st.targets ++ targetsRows sid root ts },
         n + countValid ts) := by
  intro ts
  induction ts with
  | nil =>
      intro st n
      simp [importTargets, targetsNodeWrites, targetsEdgeWrites,
        targetsFindingWrites, targetsRows, countValid, applyNW]
  | cons t ts ih =>
      intro st n
      by_cases h : t.domain = ""
      · rw [importTargets, if_pos h, ih]
        simp [targetsNodeWrites, targetsEdgeWrites, targetsFindingWrites,
          targetsRows, countValid, h]
      · rw [importTargets, if_neg h, ih, importTarget_eq]
        simp only [targetsNodeWrites, targetsEdgeWrites, targetsFindingWrites,
          targetsRows, countValid, h, if_neg, ite_false]
        refine congrArg₂ Prod.mk ?_ (by omega)
        simp [applyNW_append, List.append_assoc]

/-- All node writes of `import_recon_json`: the root-domain node
followed by the per-target writes. -/
def docNodeWrites (sid : Int) (d : ReconDoc) (ctr : Nat) :
    List (NodeKey × NodeRec) :=
  let root := d.root_domain.getD "unknown"
  ((sid, "domain:" ++ root),
   (⟨"domain", root, [("type", AVal.s "root_domain")], 10⟩ : NodeRec)) ::
  targetsNodeWrites sid d.targets ctr

def docEdgeWrites (sid : Int) (d : ReconDoc) : List EdgeRec :=
  targetsEdgeWrites sid (d.root_domain.getD "unknown") d.targets

def docFindingWrites (sid : Int) (d : ReconDoc) : List FindingRec :=
  targetsFindingWrites sid d.targets

def docRows (sid : Int) (d : ReconDoc) : List TargetRow :=
  targetsRows sid (d.root_domain.getD "unknown") d.targets

theorem importReconJson_eq (sid : Int) (d : ReconDoc) (st : Store) :
    importReconJson sid d st =
      ({ nodes := applyNW st.nodes (docNodeWrites sid d st.targets.length),
         edges := st.edges ++ docEdgeWrites sid d,
         findings := st.findings ++ docFindingWrites sid d,
         targets := st.targets ++ docRows sid d },
       countValid d.targets) := by
  unfold importReconJson
  rw [importTargets_eq]
  simp [saveNode, docNodeWrites, docEdgeWrites, docFindingWrites, docRows, applyNW]

/-! ### Write lists are independent of autoincrement ids, up to payload

The only place a target-table autoincrement id enters the graph is the
`target_id` attribute of the subdomain node; stripping attribute
payloads makes the write lists independent of the id counter. -/

theorem targetNodeWrites_stripE (sid : Int) (t : TargetDoc) (a b : Nat) :
    (targetNodeWrites sid a t).map stripE = (targetNodeWrites sid b t).map stripE := by
  simp [targetNodeWrites, stripE]

theorem targetsNodeWrites_stripE (sid : Int) :
    ∀ (ts : List TargetDoc) (a b : Nat),
      (targetsNodeWrites sid ts a).map stripE
        = (targetsNodeWrites sid ts b).map stripE := by
  intro ts
  induction ts with
  | nil => intro a b; rfl
  | cons t ts ih =>
      intro a b
      by_cases h : t.domain = ""
      · simpa [targetsNodeWrites, h] using ih a b
      · simp only [targetsNodeWrites, h, if_neg, ite_false, List.map_append]
        rw [targetNodeWrites_stripE sid t (a + 1) (b + 1), ih (a + 1) (b + 1)]

theorem docNodeWrites_stripE (sid : Int) (d : ReconDoc) (a b : Nat) :
    (docNodeWrites sid d a).map stripE = (docNodeWrites sid d b).map stripE := by
  simp only [docNodeWrites, List.map_cons]
  rw [targetsNodeWrites_stripE sid d.targets a b]

/-! ### Bounds of the risk-scoring functions -/

theorem pathRiskTable_bound : ∀ pr ∈ pathRiskTable, 0 ≤ pr.2 ∧ pr.2 ≤ 100 := by
  intro pr hmem
  fin_cases hmem <;> exact ⟨by norm_num, by norm_num⟩

theorem pathRisk_bounds (p : String) : 0 ≤ pathRisk p ∧ pathRisk p ≤ 100 := by
  rw [pathRisk]
  rcases hfind : pathRiskTable.find?
      (fun pr => strHas (stripStr (lowerStr p)) pr.1) with _ | pr
  · simp only [hfind]
    split_ifs <;> exact ⟨by norm_num, by norm_num⟩
  · simp only [hfind]
    exact pathRiskTable_bound pr (List.mem_of_find?_eq_some hfind)

theorem highPorts_bound : ∀ e ∈ highPorts, 0 ≤ e.2 ∧ e.2 ≤ 100 := by
  intro e hmem
  fin_cases hmem <;> exact ⟨by norm_num, by norm_num⟩

theorem clampAux (b : Int) (hb : 0 ≤ b) (c : Bool) :
    0 ≤ min (b + if c then (40 : Int) else 0) 100 ∧
      min (b + if c then (40 : Int) else 0) 100 ≤ 100 := by
  refine ⟨le_min ?_ (by norm_num), min_le_right _ _⟩
  cases c <;> simp <;> linarith

theorem portRisk_bounds (port : Int) (service : String) :
    0 ≤ portRisk port service ∧ portRisk port service ≤ 100 := by
  rw [portRisk]
  rcases hfind : highPorts.find? (fun e => e.1 = port) with _ | e
  · simp only [hfind]
    exact clampAux 5 (by norm_num) _
  · simp only [hfind]
    exact clampAux e.2 (highPorts_bound e (List.mem_of_find?_eq_some hfind)).1 _

theorem foldl_le_int {α : Type} (f : Int → α → Int) (h : ∀ a x, a ≤ f a x) :
    ∀ (l : List α) (a : Int), a ≤ l.foldl f a := by
  intro l
  induction l with
  | nil => intro a; exact le_refl a
  | cons x xs ih => intro a; exact le_trans (h a x) (ih (f a x))

theorem calcRisk_bounds (t : TargetDoc) : 0 ≤ calcRisk t ∧ calcRisk t ≤ 100 := by
  simp only [calcRisk]
  refine ⟨le_min ?_ (by norm_num), min_le_right _ _⟩
  refine add_nonneg
    (le_trans (le_trans ?hA (foldl_le_int _ ?s1 t.port_detail _))
      (foldl_le_int _ ?s2 t.dirb _)) ?hD
  case hA => split_ifs <;> norm_num
  case s1 =>
      intro a x
      dsimp only
      split_ifs <;> linarith
  case s2 =>
      intro a x
      have h1 := (pathRisk_bounds x).1
      have h2 : (0 : Int) ≤ Int.fdiv (pathRisk x) 5 := Int.fdiv_nonneg h1 (by norm_num)
      linarith
  case hD => split_ifs <;> norm_num

/-! ### Redirect-chain length bound -/

theorem fetchGo_chain_le (req : String → String → Option HttpResp)
    (join : String → String → String) (origUrl : String) :
    ∀ (fuel : Nat) (cur : String) (chain : List Int) (server : String)
      (res : AliveEntry),
      fetchGo req join origUrl fuel cur chain server = some res →
      res.chain_status_codes.length ≤ chain.length + fuel := by
  intro fuel
  induction fuel with
  | zero =>
      intro cur chain server res h
      simp only [fetchGo] at h
      injection h with h
      subst h
      simp
  | succ n ih =>
      intro cur chain server res h
      rcases hreq : attemptRequest req cur with _ | r
      · simp only [fetchGo, hreq] at h
        exact absurd h (by simp)
      · simp only [fetchGo, hreq] at h
        rcases hloc : lookupKV r.headers "location" with _ | l <;>
          simp only [hloc] at h
        · injection h with h
          subst h
          simp only [List.length_append, List.length_singleton]
          omega
        · split_ifs at h with hcond
          · have := ih (join cur l) (chain ++ [r.status])
              ((lookupKV r.headers "server").getD server) res h
            simp only [List.length_append, List.length_singleton] at this
            omega
          · injection h with h
            subst h
            simp only [List.length_append, List.length_singleton]
            omega

end GotRoot

namespace GotRoot

/-! ### Claims -/

/-- C1 — counterexample: the `_path_risk` table is iterated in dict
insertion order, where `/admin` precedes `/phpmyadmin`, so the path
`"/admin/phpmyadmin"` does NOT resolve to 90 as the claim states. -/
theorem claim_C1_counterexample : ¬ pathRisk "/admin/phpmyadmin" = 90 := by decide

/-- C1 (amended): `pathRisk` is deterministic and checks the sensitive-path
table in the fixed insertion order of the `high` dict, in which the
`/admin` rule is checked before the `/phpmyadmin` rule, so for the input
`"/admin/phpmyadmin"` it returns 80 (the `/admin` table entry), not the
`/phpmyadmin` entry's 90. -/
theorem claim_C1_amended :
    (pathRiskTable.map Prod.fst).indexOf "/admin"
        < (pathRiskTable.map Prod.fst).indexOf "/phpmyadmin" ∧
    pathRisk "/admin/phpmyadmin" = 80 := by decide

/-- The ScanResult of the C3 end-to-end scenario. -/
def tC3 : TargetDoc :=
  { domain := "example.com", ports := [80, 3306],
    port_detail := [("3306", "mysql 5.7")], dirb := ["/admin"] }

def docC3 : ReconDoc := { root_domain := some "example.com", targets := [tC3] }

/-- C3: for a ScanResult with open ports 80 and 3306, banner
`"mysql 5.7"` on 3306 and one discovered path `/admin`, the target risk
is 41 (25 for port 3306 plus `pathRisk "/admin" = 80` floor-divided by
5, i.e. 16), and importing it creates exactly one Finding, of severity
HIGH, category `"Exposure"`, for endpoint `domain ++ "/admin"`. -/
theorem claim_C3 :
    calcRisk tC3 = 41 ∧
    (importReconJson 1 docC3 emptyStore).1.findings
      = [⟨1, "Sensitive Path: /admin", "HIGH", "Exposure",
          "Directory bruteforce found /admin on example.com",
          "Restrict access to /admin", "example.com/admin"⟩] := by decide

def docC4 : ReconDoc :=
  { root_domain := some "acme.io",
    targets := [{ domain := "www.acme.io", ips := ["1.2.3.4"] }] }

/-- C4: importing a document with root domain `acme.io` and a single
target `www.acme.io` with ip `1.2.3.4` and nothing else produces exactly
the nodes `domain:acme.io`, `domain:www.acme.io`, `ip:1.2.3.4` and
exactly a `has_subdomain` edge (root to subdomain) and a `resolves_to`
edge (subdomain to ip). -/
theorem claim_C4 :
    (importReconJson 1 docC4 emptyStore).1.nodes.map (fun e => e.1.2)
      = ["domain:acme.io", "domain:www.acme.io", "ip:1.2.3.4"] ∧
    (importReconJson 1 docC4 emptyStore).1.edges
      = [⟨1, "domain:acme.io", "domain:www.acme.io", "has_subdomain", "www"⟩,
         ⟨1, "domain:www.acme.io", "ip:1.2.3.4", "resolves_to", ""⟩] := by decide

/-- C5: every risk score — `pathRisk`, `portRisk` and the target score
`_calc_risk` — is an integer in `[0, 100]`, for every input; in
particular the target score is clamped at 100 and never negative. -/
theorem claim_C5 :
    (∀ path : String, 0 ≤ pathRisk path ∧ pathRisk path ≤ 100) ∧
    (∀ (port : Int) (service : String),
      0 ≤ portRisk port service ∧ portRisk port service ≤ 100) ∧
    (∀ t : TargetDoc, 0 ≤ calcRisk t ∧ calcRisk t ≤ 100) :=
  ⟨pathRisk_bounds, portRisk_bounds, calcRisk_bounds⟩

def docC2 : ReconDoc :=
  { root_domain := some "acme.io", targets := [{ domain := "www.acme.io" }] }

/-- C2 — counterexample: re-importing the same document does not
reproduce literally the same node rows, because `create_target` hands
out a fresh autoincrement target id on each run and the subdomain node's
attributes embed it (`target_id` 1 on the first run, 2 on the second). -/
theorem claim_C2_counterexample :
    ¬ (importReconJson 1 docC2 (importReconJson 1 docC2 emptyStore).1).1.nodes
        = (importReconJson 1 docC2 emptyStore).1.nodes := by decide

/-- C2 (amended): running the graph builder twice on an identical
ScanResult for the same session yields the same set of graph nodes up to
attribute payloads (same keys, node types, labels and risk scores, in
the same order) with no two nodes sharing the `(session_id, node_id)`
key — re-emitting a key replaces the previous row — while the edge list
is appended again wholesale, so every emitted edge is duplicated.  (Full
row equality fails only because the subdomain node's attributes embed
the fresh autoincrement target id; see the counterexample.) -/
theorem claim_C2_amended (sid : Int) (d : ReconDoc) (st : Store)
    (h : (st.nodes.map Prod.fst).Nodup) :
    (importReconJson sid d (importReconJson sid d st).1).1.nodes.map stripE
      = (importReconJson sid d st).1.nodes.map stripE ∧
    ((importReconJson sid d st).1.nodes.map Prod.fst).Nodup ∧
    ((importReconJson sid d (importReconJson sid d st).1).1.nodes.map Prod.fst).Nodup ∧
    (importReconJson sid d st).1.edges = st.edges ++ docEdgeWrites sid d ∧
    (importReconJson sid d (importReconJson sid d st).1).1.edges
      = st.edges ++ docEdgeWrites sid d ++ docEdgeWrites sid d := by
  have h1 := importReconJson_eq sid d st
  have h2 := importReconJson_eq sid d (importReconJson sid d st).1
  have hn1 : (importReconJson sid d st).1.nodes
      = applyNW st.nodes (docNodeWrites sid d st.targets.length) :=
    congrArg (fun x => x.1.nodes) h1
  have he1 : (importReconJson sid d st).1.edges = st.edges ++ docEdgeWrites sid d :=
    congrArg (fun x => x.1.edges) h1
  have hn2 : (importReconJson sid d (importReconJson sid d st).1).1.nodes
      = applyNW (importReconJson sid d st).1.nodes
          (docNodeWrites sid d (importReconJson sid d st).1.targets.length) :=
    congrArg (fun x => x.1.nodes) h2
  have he2 : (importReconJson sid d (importReconJson sid d st).1).1.edges
      = (importReconJson sid d st).1.edges ++ docEdgeWrites sid d :=
    congrArg (fun x => x.1.edges) h2
  refine ⟨?_, ?_, ?_, he1, by rw [he2, he1]⟩
  · rw [hn2]
    calc (applyNW (importReconJson sid d st).1.nodes
            (docNodeWrites sid d (importReconJson sid d st).1.targets.length)).map stripE
        = (applyNW (importReconJson sid d st).1.nodes
            (docNodeWrites sid d st.targets.length)).map stripE :=
          applyNW_map_stripE _ _ _ _
            (docNodeWrites_stripE sid d _ _) rfl
      _ = (applyNW (applyNW st.nodes (docNodeWrites sid d st.targets.length))
            (docNodeWrites sid d st.targets.length)).map stripE := by rw [hn1]
      _ = (applyNW st.nodes (docNodeWrites sid d st.targets.length)).map stripE := by
            rw [applyNW_self]
      _ = (importReconJson sid d st).1.nodes.map stripE := by rw [hn1]
  · rw [hn1]
    exact nodup_keys_applyNW _ _ h
  · rw [hn2, hn1]
    exact nodup_keys_applyNW _ _ (nodup_keys_applyNW _ _ h)

/-- C2 — witness for the amended theorem at a concrete document. -/
theorem claim_C2_witness :
    (emptyStore.nodes.map Prod.fst).Nodup ∧
    ((importReconJson 1 docC2 (importReconJson 1 docC2 emptyStore).1).1.nodes.map stripE
        = (importReconJson 1 docC2 emptyStore).1.nodes.map stripE ∧
      ((importReconJson 1 docC2 emptyStore).1.nodes.map Prod.fst).Nodup ∧
      ((importReconJson 1 docC2 (importReconJson 1 docC2 emptyStore).1).1.nodes.map
        Prod.fst).Nodup ∧
      (importReconJson 1 docC2 emptyStore).1.edges
        = emptyStore.edges ++ docEdgeWrites 1 docC2 ∧
      (importReconJson 1 docC2 (importReconJson 1 docC2 emptyStore).1).1.edges
        = emptyStore.edges ++ docEdgeWrites 1 docC2 ++ docEdgeWrites 1 docC2) :=
  ⟨by decide, claim_C2_amended 1 docC2 emptyStore (by decide)⟩

def reqC6loop : String → String → Option HttpResp :=
  fun _ _ => some ⟨301, [("location", "/next")]⟩

def joinC6 : String → String → String := fun cur _ => cur

def resC6loop : AliveEntry :=
  { url := "http://a", final_url := "http://a", status := 301,
    chain_status_codes := [301, 301, 301, 301, 301, 301] }

/-- C6 — counterexample: against a target that redirects on every hop,
the prober with the default limit 5 records a chain of 6 status codes
(`range(max_redirects + 1)` iterations, one append each), exceeding the
claimed bound `L`. -/
theorem claim_C6_counterexample :
    fetchWithRedirects reqC6loop joinC6 "http://a" 5 = some resC6loop ∧
    ¬ resC6loop.chain_status_codes.length ≤ 5 := by decide

/-- C6 (amended): every LivenessResult produced by the HTTP prober with
redirect limit `L` has a redirect chain of at most `L + 1` recorded
status codes, even against a target that redirects on every hop (and
that bound is attained, see the counterexample). -/
theorem claim_C6_amended (req : String → String → Option HttpResp)
    (join : String → String → String) (url : String) (L : Nat)
    (res : AliveEntry) (h : fetchWithRedirects req join url L = some res) :
    res.chain_status_codes.length ≤ L + 1 := by
  have hb := fetchGo_chain_le req join url (L + 1) url [] "" res h
  simpa using hb

def reqC6ok : String → String → Option HttpResp := fun _ _ => some ⟨200, []⟩

def resC6ok : AliveEntry :=
  { url := "http://a", final_url := "http://a", status := 200,
    chain_status_codes := [200] }

/-- C6 — witness for the amended bound at a concrete non-redirecting
target. -/
theorem claim_C6_witness :
    fetchWithRedirects reqC6ok joinC6 "http://a" 5 = some resC6ok ∧
    resC6ok.chain_status_codes.length ≤ 5 + 1 :=
  ⟨by decide, claim_C6_amended reqC6ok joinC6 "http://a" 5 resC6ok (by decide)⟩

/-- C8: during graph building, a liveness result (well-formed: non-empty
requested and final URLs) whose `final_url` equals its requested `url`
contributes only a `serves` edge and no `redirects_to` edge, while one
whose `final_url` differs contributes the `serves` edge plus exactly one
`redirects_to` edge from the url node to the final-url node. -/
theorem claim_C8 (sid : Int) (domain : String) (st : Store) (e : AliveEntry)
    (hu : e.url ≠ "") (hf : e.final_url ≠ "") :
    (e.final_url = e.url →
      (aliveStep sid domain e st).edges
        = st.edges ++ [⟨sid, "domain:" ++ domain, "url:" ++ e.url, "serves", ""⟩]) ∧
    (e.final_url ≠ e.url →
      (aliveStep sid domain e st).edges
        = st.edges ++
          [⟨sid, "domain:" ++ domain, "url:" ++ e.url, "serves", ""⟩,
           ⟨sid, "url:" ++ e.url, "url:" ++ e.final_url, "redirects_to", ""⟩]) := by
  rw [aliveStep_eq]
  constructor
  · intro heq
    simp [aliveEdges, hu, heq]
  · intro hne
    simp [aliveEdges, hu, hf, hne]

def eC8 : AliveEntry := { url := "http://a/", final_url := "http://b/" }

/-- C8 — witness at a concrete redirecting liveness entry. -/
theorem claim_C8_witness :
    (eC8.url == "") = false ∧ (eC8.final_url == "") = false ∧
    (eC8.final_url == eC8.url) = false ∧
    (aliveStep 1 "www.acme.io" eC8 emptyStore).edges
      = emptyStore.edges ++
        [⟨1, "domain:" ++ "www.acme.io", "url:" ++ eC8.url, "serves", ""⟩,
         ⟨1, "url:" ++ eC8.url, "url:" ++ eC8.final_url, "redirects_to", ""⟩] :=
  ⟨by decide, by decide, by decide,
   (claim_C8 1 "www.acme.io" emptyStore eC8 (by decide) (by decide)).2 (by decide)⟩

theorem cleanPaths_eq_nil :
    ∀ (l : List String), (∀ p ∈ l, stripStr p = "") → cleanPaths l = [] := by
  intro l
  induction l with
  | nil => intro _; rfl
  | cons p ps ih =>
      intro h
      have hp := h p (by simp)
      have hps : ∀ q ∈ ps, stripStr q = "" := fun q hq => h q (by simp [hq])
      simp only [cleanPaths] at ih ⊢
      simp [List.filterMap_cons, hp, ih hps]

/-- C9: path-spec parsing never returns an empty list: an absent spec,
or one whose entries are all blank after stripping, yields the built-in
`DEFAULT_PATHS` list instead of an empty list. -/
theorem claim_C9 :
    (∀ spec : PathsSpec, parsePaths spec ≠ []) ∧
    parsePaths PathsSpec.absent = DEFAULT_PATHS ∧
    (∀ l : List String, (∀ p ∈ l, stripStr p = "") →
      parsePaths (PathsSpec.ofList l) = DEFAULT_PATHS) ∧
    (∀ s : String, (∀ p ∈ splitlines s, stripStr p = "") →
      parsePaths (PathsSpec.ofStr s) = DEFAULT_PATHS) := by
  refine ⟨?_, rfl, ?_, ?_⟩
  · intro spec
    cases spec with
    | absent => decide
    | ofList l =>
        simp only [parsePaths]
        split_ifs with h
        · decide
        · exact h
    | ofStr s =>
        simp only [parsePaths]
        split_ifs with h
        · decide
        · exact h
  · intro l h
    simp [parsePaths, cleanPaths_eq_nil l h]
  · intro s h
    simp [parsePaths, cleanPaths_eq_nil _ h]

/-- C9 — witness: a spec consisting only of blank lines parses to the
default path list. -/
theorem claim_C9_witness :
    ((splitlines "  \n\n ").all (fun p => stripStr p == "")) = true ∧
    parsePaths (PathsSpec.ofStr "  \n\n ") = DEFAULT_PATHS :=
  ⟨by decide, claim_C9.2.2.2 "  \n\n " (by decide)⟩

theorem importTargets_filter (sid : Int) (root : String) :
    ∀ (ts : List TargetDoc) (acc : Store × Nat),
      importTargets sid root ts acc
        = importTargets sid root (ts.filter (fun t => !decide (t.domain = ""))) acc := by
  intro ts
  induction ts with
  | nil => intro acc; rfl
  | cons t ts ih =>
      intro acc
      obtain ⟨st, n⟩ := acc
      by_cases h : t.domain = ""
      · simp [importTargets, List.filter_cons, h, ih (st, n)]
      · simp [importTargets, List.filter_cons, h, ih (importTarget sid root t st, n + 1)]

theorem countValid_eq_filter :
    ∀ ts : List TargetDoc,
      countValid ts = (ts.filter (fun t => !decide (t.domain = ""))).length := by
  intro ts
  induction ts with
  | nil => rfl
  | cons t ts ih =>
      by_cases h : t.domain = "" <;>
        simp [countValid, List.filter_cons, h, ih, Nat.add_comm]

/-- C10: importing a recon document skips every target entry whose
domain is missing or empty — producing no target row, node, edge or
finding for it and excluding it from the returned imported count — while
processing the remaining entries exactly as if the skipped ones were not
there. -/
theorem claim_C10 (sid : Int) (d : ReconDoc) (st : Store) :
    importReconJson sid d st
      = importReconJson sid
          { root_domain := d.root_domain,
            targets := d.targets.filter (fun t => !decide (t.domain = "")) } st ∧
    (importReconJson sid d st).2
      = (d.targets.filter (fun t => !decide (t.domain = ""))).length := by
  constructor
  · simp only [importReconJson]
    exact importTargets_filter sid _ d.targets _
  · rw [importReconJson_eq]
    exact countValid_eq_filter d.targets

theorem https_append_ne (s : String) : ¬ ("https://" ++ s = "") := by
  intro h
  have hlen := congrArg String.length h
  rw [String.length_append] at hlen
  have h8 : "https://".length = 8 := by decide
  have h0 : "".length = 0 := by decide
  rw [h8, h0] at hlen
  omega

/-- C7: target normalization fails (no NormalizedTarget produced)
exactly when the hostname it would produce is empty — which happens
precisely for whitespace-only input, since the host falls back to the
non-empty prefixed raw string whenever the parsed hostname is falsy; for
every other input it succeeds with a non-empty host, prepends
`https://` when the input lacks a `://`, and forces the scheme to
`http` or `https`. -/
theorem claim_C7 (parse : String → UrlParts) (raw0 : String) :
    (normalizeTarget parse raw0 = none ↔ stripStr raw0 = "") ∧
    (∀ t : NormTarget, normalizeTarget parse raw0 = some t →
      t.host ≠ "" ∧ (t.scheme = "http" ∨ t.scheme = "https") ∧
      (strHas (stripStr raw0) "://" = false →
        t.raw = "https://" ++ stripStr raw0)) := by
  by_cases h0 : stripStr raw0 = ""
  · refine ⟨by simp [normalizeTarget, h0], ?_⟩
    intro t ht
    simp [normalizeTarget, h0] at ht
  · refine ⟨by simp [normalizeTarget, h0], ?_⟩
    intro t ht
    simp only [normalizeTarget, if_neg h0] at ht
    by_cases h1 : strHas (stripStr raw0) "://" = true
    · rw [if_pos h1] at ht
      injection ht with ht
      subst ht
      refine ⟨?_, ?_, ?_⟩
      · dsimp only
        rcases hph : (parse (stripStr raw0)).hostname with _ | hv
        · simpa [hph] using h0
        · simp only [hph]
          split_ifs with he
          · exact h0
          · exact he
      · dsimp only
        split_ifs with hs
        · simpa using hs
        · exact Or.inr rfl
      · intro hc
        rw [h1] at hc
        cases hc
    · rw [if_neg h1] at ht
      injection ht with ht
      subst ht
      refine ⟨?_, ?_, fun _ => rfl⟩
      · dsimp only
        rcases hph : (parse ("https://" ++ stripStr raw0)).hostname with _ | hv
        · simpa [hph] using https_append_ne (stripStr raw0)
        · simp only [hph]
          split_ifs with he
          · exact https_append_ne (stripStr raw0)
          · exact he
      · dsimp only
        split_ifs with hs
        · simpa using hs
        · exact Or.inr rfl

def parseC7 : String → UrlParts :=
  fun _ => { scheme := "https", hostname := some "acme.io", port := none }

def tC7 : NormTarget :=
  { raw := "https://acme.io", host := "acme.io", scheme := "https",
    port := none, base := "https://acme.io" }

/-- C7 — witness at a concrete scheme-less input. -/
theorem claim_C7_witness :
    normalizeTarget parseC7 "acme.io" = some tC7 ∧
    (tC7.scheme = "http" ∨ tC7.scheme = "https") ∧
    tC7.raw = "https://" ++ stripStr "acme.io" :=
  ⟨by decide,
   ((claim_C7 parseC7 "acme.io").2 tC7 (by decide)).2.1,
   ((claim_C7 parseC7 "acme.io").2 tC7 (by decide)).2.2 (by decide)⟩

end GotRoot
